import Mathlib

/-!
Shallow embedding of the waterfall (masonry) layout engine from
`src/composables/useWaterfall.ts` (the `useWaterfall` composable) and the
types of `src/types.ts`.

JavaScript numbers are modelled as rationals (`ℚ`); column counts, which the
source produces with `Math.max`, `Math.floor` and breakpoint-table lookups,
are modelled as integers (`Int`).  The height-override cache (a JS `Map`)
is modelled as an association list with first-match lookup and
overwrite-or-append insertion, which is exactly the observable behaviour of
a `Map` built by `set`.
-/

namespace Waterfall

/-- `WaterfallItemSize` from `src/types.ts`: `{ width, height }`. -/
structure WaterfallItemSize where
  width : ℚ
  height : ℚ
deriving DecidableEq, Repr

/-- `WaterfallItemPosition` from `src/types.ts`: `{ x, y, width, height, column }`. -/
structure WaterfallItemPosition where
  x : ℚ
  y : ℚ
  width : ℚ
  height : ℚ
  column : Int
deriving DecidableEq, Repr

/-- `WaterfallBreakpoints` from `src/types.ts`: every field optional.
`xl2` stands for the source's `'2xl'` key (Lean names cannot start with a digit). -/
structure WaterfallBreakpoints where
  default : Option Int
  sm : Option Int
  md : Option Int
  lg : Option Int
  xl : Option Int
  xl2 : Option Int
deriving DecidableEq, Repr

/-- The Tailwind default breakpoint thresholds (the `BREAKPOINTS` constant). -/
def BREAKPOINTS_sm : ℚ := 640

def BREAKPOINTS_md : ℚ := 768

def BREAKPOINTS_lg : ℚ := 1024

def BREAKPOINTS_xl : ℚ := 1280

def BREAKPOINTS_xl2 : ℚ := 1536

/-- `getBreakpointColumns(breakpoints, width)`: starts from
`breakpoints.default ?? 2` and overwrites the result at each matching
threshold in ascending order (`if (width >= BREAKPOINTS.sm && breakpoints.sm
!== undefined) result = breakpoints.sm`, and so on).  Note that the source
never clamps the table's values. -/
def getBreakpointColumns (breakpoints : WaterfallBreakpoints) (width : ℚ) : Int :=
  let r0 := breakpoints.default.getD 2
  let r1 := if BREAKPOINTS_sm ≤ width ∧ breakpoints.sm.isSome then breakpoints.sm.getD r0 else r0
  let r2 := if BREAKPOINTS_md ≤ width ∧ breakpoints.md.isSome then breakpoints.md.getD r1 else r1
  let r3 := if BREAKPOINTS_lg ≤ width ∧ breakpoints.lg.isSome then breakpoints.lg.getD r2 else r2
  let r4 := if BREAKPOINTS_xl ≤ width ∧ breakpoints.xl.isSome then breakpoints.xl.getD r3 else r3
  let r5 := if BREAKPOINTS_xl2 ≤ width ∧ breakpoints.xl2.isSome then breakpoints.xl2.getD r4 else r4
  r5

/-- The `columns` option: a fixed number, a breakpoint table, or `undefined`
(auto mode based on `columnWidth`). -/
inductive ColumnsConfig where
  | fixed (n : Int)
  | breakpoints (bp : WaterfallBreakpoints)
  | auto
deriving DecidableEq, Repr

/-- The `columnCount` computed value: `1` when the container width is `0`;
`Math.max(1, cols)` in fixed mode; `getBreakpointColumns` in breakpoint mode
(no clamping); `Math.max(1, Math.floor((width + gap) / (colWidth + gap)))` in
auto mode. -/
def columnCount (cols : ColumnsConfig) (width colWidth gap : ℚ) : Int :=
  if width = 0 then 1
  else
    match cols with
    | .fixed n => max 1 n
    | .breakpoints bp => getBreakpointColumns bp width
    | .auto => max 1 ⌊(width + gap) / (colWidth + gap)⌋

/-- The `actualColumnWidth` computed value:
`(width - (count - 1) * gap) / count` when the width is measured, else the
configured column width. -/
def actualColumnWidth (width : ℚ) (count : Int) (colWidth gap : ℚ) : ℚ :=
  if width = 0 then colWidth
  else (width - ((count : ℚ) - 1) * gap) / (count : ℚ)

/-- Lookup in the height-override cache (`itemHeights.value.get(key)`),
modelled as first-match lookup in an association list. -/
def mapGet {κ : Type} [DecidableEq κ] (m : List (κ × ℚ)) (k : κ) : Option ℚ :=
  match m with
  | [] => none
  | (k2, v) :: rest => if k2 = k then some v else mapGet rest k

/-- Insertion into the height-override cache (`itemHeights.value.set(key, v)`):
overwrite the existing entry in place, or append a new one, as a JS `Map` does. -/
def mapSet {κ : Type} [DecidableEq κ] (m : List (κ × ℚ)) (k : κ) (v : ℚ) : List (κ × ℚ) :=
  match m with
  | [] => [(k, v)]
  | (k2, v2) :: rest => if k2 = k then (k, v) :: rest else (k2, v2) :: mapSet rest k v

/-- The options of `useWaterfall` that the layout computation reads, with the
source's defaults resolved by the caller: `columnWidth` (default `250`),
`columns`, `gap` (default `16`), the optional `getItemSize` estimator
(returning `WaterfallItemSize | null`), the `getItemKey` extractor
(default `(_item, index) => index`), and `ssrPlaceholderHeight`
(default `200`). -/
structure WaterfallConfig (α κ : Type) where
  columnWidth : ℚ
  columns : ColumnsConfig
  gap : ℚ
  getItemSize : Option (α → Nat → Option WaterfallItemSize)
  getItemKey : α → Nat → κ
  ssrPlaceholderHeight : ℚ

/-- The per-item height resolution inside `calculatePositions`
(`// Get item height - priority: measured > getItemSize estimate > placeholder`):
a measured height stored under the item's stable key wins; otherwise a
supplied estimator whose size has `width > 0 && height > 0` gives
`(size.height / size.width) * colWidth`; otherwise `ssrPlaceholderHeight`. -/
def resolveItemHeight {α κ : Type} [DecidableEq κ] (cfg : WaterfallConfig α κ)
    (heights : List (κ × ℚ)) (item : α) (i : Nat) (colWidth : ℚ) : ℚ :=
  match mapGet heights (cfg.getItemKey item i) with
  | some measuredHeight => measuredHeight
  | none =>
    match cfg.getItemSize with
    | some getSize =>
      match getSize item i with
      | some size =>
        if 0 < size.width ∧ 0 < size.height then (size.height / size.width) * colWidth
        else cfg.ssrPlaceholderHeight
      | none => cfg.ssrPlaceholderHeight
    | none => cfg.ssrPlaceholderHeight

/-- `Math.min(...columnHeights)` for a non-empty list (for the empty list the
JS call yields `Infinity`, which `shortestColumnIdx` accounts for separately). -/
def listMin : List ℚ → ℚ
  | [] => 0
  | [h] => h
  | h :: h2 :: t => min h (listMin (h2 :: t))

/-- The index of the first occurrence of `x` (`columnHeights.indexOf`),
meaningful when `x` is a member. -/
def firstIdxOf (x : ℚ) : List ℚ → Nat
  | [] => 0
  | h :: t => if h = x then 0 else firstIdxOf x t + 1

/-- `columnHeights.indexOf(Math.min(...columnHeights))` as the source computes
it: for a non-empty list, the first index attaining the minimum; for the empty
list `Math.min()` is `Infinity` and `indexOf` misses, giving `-1`. -/
def shortestColumnIdx : List ℚ → Int
  | [] => -1
  | h :: t => (firstIdxOf (listMin (h :: t)) (h :: t) : Int)

/-- The chosen column as a natural-number index (valid whenever the
column-heights list is non-empty, where `shortestColumnIdx` is
non-negative). -/
def chosenColumn (hs : List ℚ) : Nat :=
  (shortestColumnIdx hs).toNat

/-- `Array.from({ length: count }, () => 0)`: JS clamps a negative length to
`0`, hence `Int.toNat`. -/
def mkColumnHeights (count : Int) : List ℚ :=
  List.replicate count.toNat 0

/-- Reading `columnHeights[i]` at a possibly negative index: a JS array read
at `-1` yields `undefined`, modelled as `none`. -/
def listGetInt (hs : List ℚ) (i : Int) : Option ℚ :=
  if 0 ≤ i then hs.get? i.toNat else none

/-- The item-placement loop of `calculatePositions`: for each item in list
order, resolve its height, pick the shortest column, emit
`{ x, y, width, height, column }` and bump the chosen column's accumulator by
`height + gap`.  When the column-heights list is empty (count `< 0`, see the
theorems on the zero-count guard) the JS source reads `undefined` out of
bounds and produces `NaN` positions, which have no rational counterpart; that
branch returns `[]` here and is covered separately. -/
def packLoop {α κ : Type} [DecidableEq κ] (cfg : WaterfallConfig α κ)
    (heights : List (κ × ℚ)) (colWidth gap : ℚ) :
    List α → Nat → List ℚ → List WaterfallItemPosition
  | [], _, _ => []
  | _ :: _, _, [] => []
  | item :: rest, i, h0 :: tl =>
    let itemHeight := resolveItemHeight cfg heights item i colWidth
    let shortestColumn := chosenColumn (h0 :: tl)
    let x := (shortestColumn : ℚ) * (colWidth + gap)
    let y := (h0 :: tl).getD shortestColumn 0
    ⟨x, y, colWidth, itemHeight, (shortestColumn : Int)⟩ ::
      packLoop cfg heights colWidth gap rest (i + 1)
        ((h0 :: tl).set shortestColumn (y + itemHeight + gap))

/-- `calculatePositions()`: resolve the column count and actual column width,
return `[]` when `count === 0 || itemList.length === 0`, otherwise run the
placement loop over column accumulators initialized to zero. -/
def calculatePositions {α κ : Type} [DecidableEq κ] (cfg : WaterfallConfig α κ)
    (heights : List (κ × ℚ)) (containerWidth : ℚ) (itemList : List α) :
    List WaterfallItemPosition :=
  let count := columnCount cfg.columns containerWidth cfg.columnWidth cfg.gap
  let colWidth := actualColumnWidth containerWidth count cfg.columnWidth cfg.gap
  if count = 0 ∨ itemList.length = 0 then []
  else packLoop cfg heights colWidth cfg.gap itemList 0 (mkColumnHeights count)

/-- The engine's mutable state that the claims are about: the height-override
cache (`itemHeights`) and the last computed positions. -/
structure EngineState (κ : Type) where
  itemHeights : List (κ × ℚ)
  positions : List WaterfallItemPosition
deriving DecidableEq, Repr

/-- `recalculate()`: overwrite `positions` with a fresh `calculatePositions()`
run against the current cache, item list and configuration. -/
def recalcState {α κ : Type} [DecidableEq κ] (cfg : WaterfallConfig α κ) (w : ℚ)
    (items : List α) (s : EngineState κ) : EngineState κ :=
  { s with positions := calculatePositions cfg s.itemHeights w items }

/-- `updateItemHeight(keyOrIndex, height)`: when the cached value differs from
`height` (in JS, `get` of an absent key is `undefined`, which `!==` any
number), store it and `recalculate()`; otherwise do nothing.  The returned
`Bool` records whether a recomputation was triggered. -/
def updateItemHeight {α κ : Type} [DecidableEq κ] (cfg : WaterfallConfig α κ) (w : ℚ)
    (items : List α) (s : EngineState κ) (key : κ) (height : ℚ) :
    EngineState κ × Bool :=
  if mapGet s.itemHeights key ≠ some height then
    (recalcState cfg w items { s with itemHeights := mapSet s.itemHeights key height }, true)
  else
    (s, false)

/-- The breakpoint table as the ordered list of `(threshold, configured value)`
pairs that `getBreakpointColumns` scans, ascending. -/
def breakpointEntries (bp : WaterfallBreakpoints) : List (ℚ × Option Int) :=
  [(BREAKPOINTS_sm, bp.sm), (BREAKPOINTS_md, bp.md), (BREAKPOINTS_lg, bp.lg),
    (BREAKPOINTS_xl, bp.xl), (BREAKPOINTS_xl2, bp.xl2)]

/-- The overwrite chain of `getBreakpointColumns`, generalized to any list of
`(threshold, value)` pairs: each defined entry whose threshold is at most the
width overwrites the running result. -/
def overrideChain (w : ℚ) : List (ℚ × Option Int) → Int → Int
  | [], d => d
  | (t, v) :: rest, d => overrideChain w rest (if t ≤ w ∧ v.isSome then v.getD d else d)

/-- Modelled on the spec's words for breakpoint mode: the value associated
with the largest threshold at most the container width (the last applicable
entry of the ascending table), falling back to the `default` entry, itself
defaulting to `2`.  Used only to compare against `getBreakpointColumns`. -/
def getBreakpointColumnsSpec (bp : WaterfallBreakpoints) (width : ℚ) : Int :=
  ((breakpointEntries bp).filterMap fun tv =>
    if tv.1 ≤ width then tv.2 else none).getLastD (bp.default.getD 2)

/-! Concrete instances used by witnesses and counterexamples. -/

/-- The breakpoint table of the spec's example scenario, `{default: 2, md: 4}`. -/
def bpMd4 : WaterfallBreakpoints := ⟨some 2, none, some 4, none, none, none⟩

/-- A breakpoint table whose `default` entry is `0`. -/
def bpZero : WaterfallBreakpoints := ⟨some 0, none, none, none, none, none⟩

/-- A breakpoint table whose `md` entry is negative. -/
def bpNegMd : WaterfallBreakpoints := ⟨some 2, none, some (-1), none, none, none⟩

/-- A configuration with two fixed columns, string items keyed by themselves
and no size estimator. -/
def cfgFixed2 : WaterfallConfig String String :=
  ⟨250, .fixed 2, 16, none, fun it _ => it, 200⟩

/-- The height-override cache recording heights for keys "a", "b" and "c". -/
def cacheABC : List (String × ℚ) := [("a", 100), ("b", 150), ("c", 80)]

/-- An auto-mode configuration over unit items keyed by index. -/
def cfgAuto : WaterfallConfig Unit Nat :=
  ⟨250, .auto, 16, none, fun _ i => i, 200⟩

/-- A configuration whose breakpoint table holds a negative entry. -/
def cfgNegBp : WaterfallConfig Unit Nat :=
  ⟨250, .breakpoints bpNegMd, 16, none, fun _ i => i, 200⟩

/-- An engine state with one cached height and no computed positions. -/
def stateA : EngineState Nat := ⟨[(0, 100)], []⟩

/-- An engine state with the same cache as `stateA` but a different
position history. -/
def stateB : EngineState Nat := ⟨[(0, 100)], [⟨0, 0, 0, 0, 0⟩]⟩

/-! Helper lemmas about the shortest-column selection. -/

theorem listMin_cons_cons (h0 h1 : ℚ) (t : List ℚ) :
    listMin (h0 :: h1 :: t) = min h0 (listMin (h1 :: t)) := rfl

theorem listMin_mem : ∀ (h0 : ℚ) (tl : List ℚ), listMin (h0 :: tl) ∈ h0 :: tl := by
  intro h0 tl
  induction tl generalizing h0 with
  | nil => simp [listMin]
  | cons h1 t ih =>
    rw [listMin_cons_cons]
    rcases min_cases h0 (listMin (h1 :: t)) with ⟨heq, _⟩ | ⟨heq, _⟩
    · rw [heq]; exact List.mem_cons_self _ _
    · rw [heq]; exact List.mem_cons_of_mem _ (ih h1)

theorem listMin_le : ∀ (hs : List ℚ) (y : ℚ), y ∈ hs → listMin hs ≤ y := by
  intro hs
  induction hs with
  | nil => intro y hy; simp at hy
  | cons h0 tl ih =>
    intro y hy
    cases tl with
    | nil =>
      have : y = h0 := by simpa using hy
      simp [listMin, this]
    | cons h1 t =>
      rw [listMin_cons_cons]
      rcases List.mem_cons.mp hy with rfl | hy2
      · exact min_le_left _ _
      · exact le_trans (min_le_right _ _) (ih y hy2)

theorem firstIdxOf_lt_length {x : ℚ} :
    ∀ {hs : List ℚ}, x ∈ hs → firstIdxOf x hs < hs.length := by
  intro hs
  induction hs with
  | nil => intro h; simp at h
  | cons h0 tl ih =>
    intro hmem
    by_cases he : h0 = x
    · simp [firstIdxOf, he]
    · have hx : x ∈ tl := by
        rcases List.mem_cons.mp hmem with rfl | h
        · exact absurd rfl he
        · exact h
      simpa [firstIdxOf, he, Nat.succ_lt_succ_iff] using ih hx

theorem getD_firstIdxOf {x : ℚ} :
    ∀ {hs : List ℚ}, x ∈ hs → hs.getD (firstIdxOf x hs) 0 = x := by
  intro hs
  induction hs with
  | nil => intro h; simp at h
  | cons h0 tl ih =>
    intro hmem
    by_cases he : h0 = x
    · simp [firstIdxOf, he]
    · have hx : x ∈ tl := by
        rcases List.mem_cons.mp hmem with rfl | h
        · exact absurd rfl he
        · exact h
      simpa [firstIdxOf, he] using ih hx

theorem getD_lt_firstIdxOf {x : ℚ} :
    ∀ {hs : List ℚ} {j : Nat}, j < firstIdxOf x hs → hs.getD j 0 ≠ x := by
  intro hs
  induction hs with
  | nil => intro j h; simp [firstIdxOf] at h
  | cons h0 tl ih =>
    intro j hj
    by_cases he : h0 = x
    · simp [firstIdxOf, he] at hj
    · cases j with
      | zero => simpa using he
      | succ j =>
        have : j < firstIdxOf x tl := by
          simpa [firstIdxOf, he, Nat.succ_lt_succ_iff] using hj
        simpa using ih this

theorem chosenColumn_cons (h0 : ℚ) (tl : List ℚ) :
    chosenColumn (h0 :: tl) = firstIdxOf (listMin (h0 :: tl)) (h0 :: tl) := by
  simp [chosenColumn, shortestColumnIdx]

theorem chosenColumn_lt_length (h0 : ℚ) (tl : List ℚ) :
    chosenColumn (h0 :: tl) < (h0 :: tl).length := by
  rw [chosenColumn_cons]
  exact firstIdxOf_lt_length (listMin_mem h0 tl)

theorem getD_chosenColumn (h0 : ℚ) (tl : List ℚ) :
    (h0 :: tl).getD (chosenColumn (h0 :: tl)) 0 = listMin (h0 :: tl) := by
  rw [chosenColumn_cons]
  exact getD_firstIdxOf (listMin_mem h0 tl)

theorem chosenColumn_is_min (h0 : ℚ) (tl : List ℚ) :
    ∀ j < (h0 :: tl).length,
      (h0 :: tl).getD (chosenColumn (h0 :: tl)) 0 ≤ (h0 :: tl).getD j 0 := by
  intro j hj
  rw [getD_chosenColumn]
  have hmem : (h0 :: tl).getD j 0 ∈ h0 :: tl := by
    rw [List.getD_eq_getElem _ _ hj]
    exact List.getElem_mem hj
  exact listMin_le _ _ hmem

theorem chosenColumn_tiebreak (h0 : ℚ) (tl : List ℚ) :
    ∀ j < chosenColumn (h0 :: tl),
      (h0 :: tl).getD (chosenColumn (h0 :: tl)) 0 < (h0 :: tl).getD j 0 := by
  intro j hj
  have hjlen : j < (h0 :: tl).length := lt_trans hj (chosenColumn_lt_length h0 tl)
  have hne : (h0 :: tl).getD j 0 ≠ listMin (h0 :: tl) := by
    have := hj
    rw [chosenColumn_cons] at this
    exact getD_lt_firstIdxOf this
  have hle := chosenColumn_is_min h0 tl j hjlen
  rw [getD_chosenColumn] at hle ⊢
  exact lt_of_le_of_ne hle (Ne.symm hne)

theorem getD_set_self (l : List ℚ) (i : Nat) (v : ℚ) (h : i < l.length) :
    (l.set i v).getD i 0 = v := by
  rw [List.getD_eq_getElem _ _ (by simpa using h)]
  exact List.getElem_set_self _

theorem getD_set_ne (l : List ℚ) (i j : Nat) (v : ℚ) (h : j < l.length) (hne : i ≠ j) :
    (l.set i v).getD j 0 = l.getD j 0 := by
  rw [List.getD_eq_getElem _ _ (by simpa using h), List.getD_eq_getElem _ _ h]
  exact List.getElem_set_ne hne _

/-- C1: for every item list, column count at least one (so a non-empty
column-heights list `h0 :: tl`), gap and height resolver, each placement step
of the packing loop chooses a valid column index at which the accumulated
height is minimal (no other column strictly shorter), breaking ties by the
lowest index (every strictly earlier column is strictly taller); the emitted
position has `x = columnIndex * (columnWidth + gap)` and `y` equal to the
chosen column's accumulated height before placement, and the loop continues
with exactly that column's accumulator increased by `height + gap` while all
other columns keep their accumulated heights. -/
theorem packLoop_shortest_column_step {α κ : Type} [DecidableEq κ]
    (cfg : WaterfallConfig α κ) (heights : List (κ × ℚ)) (colWidth gap : ℚ)
    (item : α) (rest : List α) (i : Nat) (h0 : ℚ) (tl : List ℚ) :
    chosenColumn (h0 :: tl) < (h0 :: tl).length ∧
    (∀ j < (h0 :: tl).length,
      (h0 :: tl).getD (chosenColumn (h0 :: tl)) 0 ≤ (h0 :: tl).getD j 0) ∧
    (∀ j < chosenColumn (h0 :: tl),
      (h0 :: tl).getD (chosenColumn (h0 :: tl)) 0 < (h0 :: tl).getD j 0) ∧
    packLoop cfg heights colWidth gap (item :: rest) i (h0 :: tl) =
      ⟨(chosenColumn (h0 :: tl) : ℚ) * (colWidth + gap),
        (h0 :: tl).getD (chosenColumn (h0 :: tl)) 0, colWidth,
        resolveItemHeight cfg heights item i colWidth,
        (chosenColumn (h0 :: tl) : Int)⟩ ::
      packLoop cfg heights colWidth gap rest (i + 1)
        ((h0 :: tl).set (chosenColumn (h0 :: tl))
          ((h0 :: tl).getD (chosenColumn (h0 :: tl)) 0 +
            resolveItemHeight cfg heights item i colWidth + gap)) ∧
    (∀ j < (h0 :: tl).length,
      ((h0 :: tl).set (chosenColumn (h0 :: tl))
        ((h0 :: tl).getD (chosenColumn (h0 :: tl)) 0 +
          resolveItemHeight cfg heights item i colWidth + gap)).getD j 0 =
      if j = chosenColumn (h0 :: tl) then
        (h0 :: tl).getD j 0 + resolveItemHeight cfg heights item i colWidth + gap
      else (h0 :: tl).getD j 0) := by
  refine ⟨chosenColumn_lt_length h0 tl, chosenColumn_is_min h0 tl,
    chosenColumn_tiebreak h0 tl, rfl, ?_⟩
  intro j hj
  by_cases hje : j = chosenColumn (h0 :: tl)
  · subst hje
    rw [if_pos rfl, getD_set_self _ _ _ hj]
  · rw [if_neg hje, getD_set_ne _ _ _ _ hj (fun h => hje h.symm)]

/-- C2: the height used for an item follows the priority: a cache entry under
the item's stable key wins; otherwise a supplied estimator returning a size
with strictly positive width and height gives
`(estimatedHeight / estimatedWidth) * columnWidth`; otherwise (no estimator,
null result, or non-positive estimated width or height) the fixed placeholder
height is used.  All arithmetic stays in `ℚ`, where the guarded branch never
divides by the non-positive width. -/
theorem resolveItemHeight_priority {α κ : Type} [DecidableEq κ]
    (cfg : WaterfallConfig α κ) (heights : List (κ × ℚ)) (item : α) (i : Nat)
    (colWidth : ℚ) :
    (∀ h, mapGet heights (cfg.getItemKey item i) = some h →
      resolveItemHeight cfg heights item i colWidth = h) ∧
    (∀ f size, mapGet heights (cfg.getItemKey item i) = none →
      cfg.getItemSize = some f → f item i = some size →
      0 < size.width → 0 < size.height →
      resolveItemHeight cfg heights item i colWidth =
        (size.height / size.width) * colWidth) ∧
    (mapGet heights (cfg.getItemKey item i) = none →
      (cfg.getItemSize = none ∨
        ∃ f, cfg.getItemSize = some f ∧
          (f item i = none ∨
            ∃ size, f item i = some size ∧ (size.width ≤ 0 ∨ size.height ≤ 0))) →
      resolveItemHeight cfg heights item i colWidth = cfg.ssrPlaceholderHeight) := by
  refine ⟨?_, ?_, ?_⟩
  · intro h hm
    simp [resolveItemHeight, hm]
  · intro f size hm hf hsize hw hh
    simp [resolveItemHeight, hm, hf, hsize, hw, hh]
  · intro hm hcase
    rcases hcase with hnone | ⟨f, hf, hfn | ⟨size, hs, hwh⟩⟩
    · simp [resolveItemHeight, hm, hnone]
    · simp [resolveItemHeight, hm, hf, hfn]
    · have hcond : ¬ (0 < size.width ∧ 0 < size.height) := by
        rcases hwh with hw | hh
        · exact fun c => absurd c.1 (not_lt.mpr hw)
        · exact fun c => absurd c.2 (not_lt.mpr hh)
      simp [resolveItemHeight, hm, hf, hs, hcond]

/-- C3 counterexample: a breakpoint-table value of `0` is not clamped to `1`:
with container width `100` and the table `{default: 0}` the resolved column
count is `0`, contradicting the claim that a non-positive configured column
count in any mode clamps to `1`. -/
theorem columnCount_breakpoint_zero_not_clamped :
    columnCount (.breakpoints bpZero) 100 250 16 = 0 ∧
    ¬ columnCount (.breakpoints bpZero) 100 250 16 = 1 := by
  constructor
  · decide
  · decide

/-- C3 amended: with container width `0` the column count is `1` regardless of
configuration, and a non-positive fixed column count clamps to `1` (fixed mode
is `max 1 n`); but breakpoint-table values pass through `getBreakpointColumns`
without clamping, and the gap is used as supplied (the auto-mode formula takes
the raw gap); no configuration causes an error (every configuration yields a
result). -/
theorem columnCount_clamping_amended (colW gap w : ℚ) (n : Int)
    (bp : WaterfallBreakpoints) (cfg : ColumnsConfig) :
    columnCount cfg 0 colW gap = 1 ∧
    (w ≠ 0 → columnCount (.fixed n) w colW gap = max 1 n) ∧
    (n ≤ 0 → w ≠ 0 → columnCount (.fixed n) w colW gap = 1) ∧
    (w ≠ 0 → columnCount (.breakpoints bp) w colW gap = getBreakpointColumns bp w) ∧
    (w ≠ 0 → columnCount .auto w colW gap = max 1 ⌊(w + gap) / (colW + gap)⌋) := by
  refine ⟨by simp [columnCount], fun hw => ?_, fun hn hw => ?_, fun hw => ?_, fun hw => ?_⟩
  · simp [columnCount, hw]
  · have h1 : max (1 : Int) n = 1 := max_eq_left (le_trans hn (by norm_num))
    simp [columnCount, hw, h1]
  · simp [columnCount, hw]
  · simp [columnCount, hw]

/-- C3 amended witness: at width `0` with a fixed count of `-5` the column
count is `1`, and at width `100` a fixed count of `-5` also clamps to `1`. -/
theorem columnCount_clamping_amended_witness :
    columnCount (.fixed (-5)) 0 250 16 = 1 ∧
    ((100 : ℚ) ≠ 0 → columnCount (.fixed (-5)) 100 250 16 = max 1 (-5)) ∧
    ((-5 : Int) ≤ 0 → (100 : ℚ) ≠ 0 → columnCount (.fixed (-5)) 100 250 16 = 1) ∧
    ((100 : ℚ) ≠ 0 →
      columnCount (.breakpoints bpZero) 100 250 16 = getBreakpointColumns bpZero 100) ∧
    ((100 : ℚ) ≠ 0 → columnCount .auto 100 250 16 = max 1 ⌊((100 : ℚ) + 16) / (250 + 16)⌋) :=
  columnCount_clamping_amended 250 16 100 (-5) bpZero (.fixed (-5))

theorem getBreakpointColumns_eq_overrideChain (bp : WaterfallBreakpoints) (w : ℚ) :
    getBreakpointColumns bp w = overrideChain w (breakpointEntries bp) (bp.default.getD 2) :=
  rfl

theorem overrideChain_eq_getLastD (w : ℚ) :
    ∀ (l : List (ℚ × Option Int)) (d : Int),
      overrideChain w l d =
        (l.filterMap fun tv => if tv.1 ≤ w then tv.2 else none).getLastD d := by
  intro l
  induction l with
  | nil => intro d; rfl
  | cons tv rest ih =>
    intro d
    obtain ⟨t, v⟩ := tv
    by_cases ht : t ≤ w
    · cases v with
      | none => simp [overrideChain, List.filterMap_cons, ht, ih]
      | some x =>
        have hmain : overrideChain w ((t, some x) :: rest) d = overrideChain w rest x := by
          simp [overrideChain, ht]
        have hfm : (List.filterMap (fun tv => if tv.1 ≤ w then tv.2 else none)
            ((t, some x) :: rest)) =
            x :: List.filterMap (fun tv => if tv.1 ≤ w then tv.2 else none) rest := by
          simp [List.filterMap_cons, ht]
        rw [hmain, ih x, hfm, List.getLastD_cons d x _]
    · cases v with
      | none => simp [overrideChain, List.filterMap_cons, ht, ih]
      | some x => simp [overrideChain, List.filterMap_cons, ht, ih]

/-- C4: in breakpoint mode with positive container width, the column count is
the value associated with the largest threshold at most the container width
(the last applicable entry of the ascending table, so a larger matching
threshold always overrides a smaller one), falling back to the `default`
entry, itself defaulting to `2`, when no threshold matches; and the table
`{default: 2, md: 4}` at width `800` yields `4`. -/
theorem columnCount_breakpoint_mode (bp : WaterfallBreakpoints) (w colW gap : ℚ)
    (hw : 0 < w) :
    columnCount (.breakpoints bp) w colW gap = getBreakpointColumnsSpec bp w ∧
    columnCount (.breakpoints bpMd4) 800 250 16 = 4 := by
  constructor
  · have : columnCount (.breakpoints bp) w colW gap = getBreakpointColumns bp w := by
      simp [columnCount, hw.ne']
    rw [this, getBreakpointColumns_eq_overrideChain, overrideChain_eq_getLastD]
    rfl
  · decide

/-- C4 witness: the refinement instantiated at the example table
`{default: 2, md: 4}` and width `800`. -/
theorem columnCount_breakpoint_mode_witness :
    columnCount (.breakpoints bpMd4) 800 250 16 = getBreakpointColumnsSpec bpMd4 800 ∧
    columnCount (.breakpoints bpMd4) 800 250 16 = 4 :=
  columnCount_breakpoint_mode bpMd4 800 250 16 (by norm_num)

/-- C5: in auto mode with positive container width, the column count is
`max 1 ⌊(containerWidth + gap) / (minColumnWidth + gap)⌋`; in particular
container width `1000` with gap `16` and minimum column width `250` yields
`⌊1016 / 266⌋ = 3` columns. -/
theorem columnCount_auto_mode (w colW gap : ℚ) (hw : 0 < w) :
    columnCount .auto w colW gap = max 1 ⌊(w + gap) / (colW + gap)⌋ ∧
    columnCount .auto 1000 250 16 = 3 := by
  constructor
  · simp [columnCount, hw.ne']
  · have hfloor : ⌊((1000 : ℚ) + 16) / (250 + 16)⌋ = 3 := by
      rw [Int.floor_eq_iff]
      norm_num
    simp [columnCount, hfloor]

/-- C5 witness: the auto-mode formula instantiated at the example scenario. -/
theorem columnCount_auto_mode_witness :
    columnCount .auto 1000 250 16 = max 1 ⌊((1000 : ℚ) + 16) / (250 + 16)⌋ ∧
    columnCount .auto 1000 250 16 = 3 :=
  columnCount_auto_mode 1000 250 16 (by norm_num)

theorem set_cons_ne_nil (h0 : ℚ) (tl : List ℚ) (i : Nat) (v : ℚ) :
    (h0 :: tl).set i v ≠ [] := by
  cases i <;> simp

theorem packLoop_length {α κ : Type} [DecidableEq κ] (cfg : WaterfallConfig α κ)
    (H : List (κ × ℚ)) (cw gap : ℚ) :
    ∀ (items : List α) (i : Nat) (hs : List ℚ), hs ≠ [] →
      (packLoop cfg H cw gap items i hs).length = items.length := by
  intro items
  induction items with
  | nil => intro i hs _; simp [packLoop]
  | cons item rest ih =>
    intro i hs hne
    cases hs with
    | nil => exact absurd rfl hne
    | cons h0 tl =>
      simp only [packLoop, List.length_cons]
      rw [ih (i + 1) _ (set_cons_ne_nil h0 tl _ _)]

theorem resolveItemHeight_cache_ext {α κ : Type} [DecidableEq κ]
    (cfg : WaterfallConfig α κ) (H1 H2 : List (κ × ℚ))
    (hH : ∀ k, mapGet H1 k = mapGet H2 k) (item : α) (i : Nat) (cw : ℚ) :
    resolveItemHeight cfg H1 item i cw = resolveItemHeight cfg H2 item i cw := by
  simp only [resolveItemHeight, hH]

theorem packLoop_cache_ext {α κ : Type} [DecidableEq κ] (cfg : WaterfallConfig α κ)
    (H1 H2 : List (κ × ℚ)) (cw gap : ℚ) (hH : ∀ k, mapGet H1 k = mapGet H2 k) :
    ∀ (items : List α) (i : Nat) (hs : List ℚ),
      packLoop cfg H1 cw gap items i hs = packLoop cfg H2 cw gap items i hs := by
  intro items
  induction items with
  | nil => intro i hs; simp [packLoop]
  | cons item rest ih =>
    intro i hs
    cases hs with
    | nil => simp [packLoop]
    | cons h0 tl =>
      simp only [packLoop]
      rw [resolveItemHeight_cache_ext cfg H1 H2 hH item i cw, ih]

/-- C6: the position computation returns `[]` exactly on the guard (column
count `0` or empty item list); with a positive column count and a non-empty
item list it returns one position per item, in item order (the output length
equals the input length and the output is non-empty); and the output depends
on the override cache only through lookup, so two caches that agree as maps
(for instance, the same entries in any insertion order) produce identical
output. -/
theorem calculatePositions_length_order {α κ : Type} [DecidableEq κ]
    (cfg : WaterfallConfig α κ) (H1 H2 : List (κ × ℚ)) (w : ℚ) (items : List α) :
    (columnCount cfg.columns w cfg.columnWidth cfg.gap = 0 ∨ items.length = 0 →
      calculatePositions cfg H1 w items = []) ∧
    (0 < columnCount cfg.columns w cfg.columnWidth cfg.gap → items.length ≠ 0 →
      (calculatePositions cfg H1 w items).length = items.length ∧
      calculatePositions cfg H1 w items ≠ []) ∧
    ((∀ k, mapGet H1 k = mapGet H2 k) →
      calculatePositions cfg H1 w items = calculatePositions cfg H2 w items) := by
  refine ⟨?_, ?_, ?_⟩
  · intro h
    simp only [calculatePositions]
    rw [if_pos h]
  · intro hpos hne
    have hguard : ¬ (columnCount cfg.columns w cfg.columnWidth cfg.gap = 0 ∨
        items.length = 0) := by
      push_neg
      exact ⟨hpos.ne', hne⟩
    have hcols : mkColumnHeights (columnCount cfg.columns w cfg.columnWidth cfg.gap) ≠ [] := by
      intro hcontra
      have hlen := congrArg List.length hcontra
      simp [mkColumnHeights] at hlen
      omega
    have hlen : (calculatePositions cfg H1 w items).length = items.length := by
      simp only [calculatePositions]
      rw [if_neg hguard]
      exact packLoop_length cfg H1 _ cfg.gap items 0 _ hcols
    refine ⟨hlen, ?_⟩
    intro hnil
    rw [hnil] at hlen
    exact hne hlen.symm
  · intro hH
    simp only [calculatePositions]
    by_cases hguard : columnCount cfg.columns w cfg.columnWidth cfg.gap = 0 ∨
        items.length = 0
    · rw [if_pos hguard, if_pos hguard]
    · rw [if_neg hguard, if_neg hguard]
      exact packLoop_cache_ext cfg H1 H2 _ cfg.gap hH items 0 _

theorem packLoop_height_map {α κ : Type} [DecidableEq κ] (cfg : WaterfallConfig α κ)
    (H : List (κ × ℚ)) (cw gap : ℚ) (keyFn : α → κ)
    (hkey : ∀ (it : α) (j : Nat), cfg.getItemKey it j = keyFn it) :
    ∀ (items : List α) (i : Nat) (hs : List ℚ), hs ≠ [] →
      (∀ it ∈ items, (mapGet H (keyFn it)).isSome) →
      (packLoop cfg H cw gap items i hs).map WaterfallItemPosition.height =
        items.map fun it => (mapGet H (keyFn it)).getD 0 := by
  intro items
  induction items with
  | nil => intro i hs _ _; simp [packLoop]
  | cons item rest ih =>
    intro i hs hne hcov
    cases hs with
    | nil => exact absurd rfl hne
    | cons h0 tl =>
      obtain ⟨v, hv⟩ :=
        Option.isSome_iff_exists.mp (hcov item (List.mem_cons_self item rest))
      have hres : resolveItemHeight cfg H item i cw = v := by
        simp [resolveItemHeight, hkey, hv]
      simp only [packLoop, List.map_cons]
      rw [hres, hv]
      simp only [Option.getD_some]
      congr 1
      exact ih (i + 1) _ (set_cons_ne_nil h0 tl _ _)
        fun it hit => hcov it (List.mem_cons_of_mem _ hit)

/-- C7: when every item's stable key has a recorded height in the override
cache and the key extractor depends only on the item (not its position), each
output position's height is exactly the height recorded under that item's own
key — so permuting the item list (for instance, items A, B, C with keys "a",
"b", "c" reordered to B, A, C, as the witness instantiates) keeps every
per-key height attached to its own item even though array indices changed. -/
theorem calculatePositions_reorder_safety {α κ : Type} [DecidableEq κ]
    (cfg : WaterfallConfig α κ) (H : List (κ × ℚ)) (w : ℚ) (items : List α)
    (keyFn : α → κ)
    (hkey : ∀ (it : α) (j : Nat), cfg.getItemKey it j = keyFn it)
    (hcov : ∀ it ∈ items, (mapGet H (keyFn it)).isSome)
    (hcount : 0 < columnCount cfg.columns w cfg.columnWidth cfg.gap) :
    (calculatePositions cfg H w items).map WaterfallItemPosition.height =
      items.map fun it => (mapGet H (keyFn it)).getD 0 := by
  cases items with
  | nil => simp [calculatePositions]
  | cons a l =>
    have hguard : ¬ (columnCount cfg.columns w cfg.columnWidth cfg.gap = 0 ∨
        (a :: l).length = 0) := by
      push_neg
      exact ⟨hcount.ne', by simp⟩
    have hcols : mkColumnHeights (columnCount cfg.columns w cfg.columnWidth cfg.gap) ≠ [] := by
      intro hcontra
      have hlen := congrArg List.length hcontra
      simp [mkColumnHeights] at hlen
      omega
    simp only [calculatePositions]
    rw [if_neg hguard]
    exact packLoop_height_map cfg H _ cfg.gap keyFn hkey (a :: l) 0 _ hcols hcov

/-- C7 witness: items with keys "a", "b", "c" and cached heights `100`, `150`,
`80`, presented in the reordered list B, A, C: each height follows its key. -/
theorem calculatePositions_reorder_safety_witness :
    (∀ (it : String) (j : Nat), cfgFixed2.getItemKey it j = it) ∧
    (∀ it ∈ ["b", "a", "c"], (mapGet cacheABC it).isSome) ∧
    0 < columnCount cfgFixed2.columns 1000 cfgFixed2.columnWidth cfgFixed2.gap ∧
    (calculatePositions cfgFixed2 cacheABC 1000 ["b", "a", "c"]).map
      WaterfallItemPosition.height = [150, 100, 80] := by
  refine ⟨fun it j => rfl, by decide, by decide, ?_⟩
  have h := calculatePositions_reorder_safety cfgFixed2 cacheABC 1000 ["b", "a", "c"]
    (fun s => s) (fun it j => rfl) (by decide) (by decide)
  rw [h]
  rfl

theorem mapGet_mapSet_self {κ : Type} [DecidableEq κ] :
    ∀ (m : List (κ × ℚ)) (k : κ) (v : ℚ), mapGet (mapSet m k v) k = some v := by
  intro m k v
  induction m with
  | nil => simp [mapSet, mapGet]
  | cons kv rest ih =>
    obtain ⟨k2, v2⟩ := kv
    by_cases hk : k2 = k
    · simp [mapSet, hk, mapGet]
    · simp [mapSet, hk, mapGet, ih]

/-- C8: the height-override update stores the height and triggers a
recomputation exactly when the cache had no entry for the key or a different
one (in JS, `Map.get` of an absent key is `undefined`, which differs from any
number); after any call the cache holds the reported height under the key,
the triggered recomputation is a full `calculatePositions` run against the
updated cache, and a second call with the same key and height is a no-op:
it triggers no recomputation and changes neither the cache nor the
positions. -/
theorem updateItemHeight_idempotent {α κ : Type} [DecidableEq κ]
    (cfg : WaterfallConfig α κ) (w : ℚ) (items : List α) (s : EngineState κ)
    (k : κ) (h : ℚ) :
    ((updateItemHeight cfg w items s k h).2 = true ↔
      mapGet s.itemHeights k ≠ some h) ∧
    mapGet (updateItemHeight cfg w items s k h).1.itemHeights k = some h ∧
    (mapGet s.itemHeights k ≠ some h →
      (updateItemHeight cfg w items s k h).1.positions =
        calculatePositions cfg (mapSet s.itemHeights k h) w items) ∧
    updateItemHeight cfg w items (updateItemHeight cfg w items s k h).1 k h =
      ((updateItemHeight cfg w items s k h).1, false) := by
  by_cases hc : mapGet s.itemHeights k = some h
  · refine ⟨?_, ?_, ?_, ?_⟩ <;> simp [updateItemHeight, hc, recalcState]
  · refine ⟨?_, ?_, ?_, ?_⟩ <;>
      simp [updateItemHeight, hc, recalcState, mapGet_mapSet_self]

/-- C9: `recalculate()` is deterministic: two engine states with the same
override cache produce element-for-element identical positions under the same
configuration, container width and item list, regardless of any previously
computed positions (the call history); and the recomputation leaves the
override cache unchanged. -/
theorem recalculate_deterministic {α κ : Type} [DecidableEq κ]
    (cfg : WaterfallConfig α κ) (w : ℚ) (items : List α) (s1 s2 : EngineState κ)
    (hcache : s1.itemHeights = s2.itemHeights) :
    (recalcState cfg w items s1).positions = (recalcState cfg w items s2).positions ∧
    (recalcState cfg w items s1).itemHeights = s1.itemHeights := by
  constructor
  · simp [recalcState, hcache]
  · rfl

/-- C9 witness: two states sharing a cache but with different position
histories produce the same positions, and the cache is untouched. -/
theorem recalculate_deterministic_witness :
    stateA.itemHeights = stateB.itemHeights ∧
    ((recalcState cfgAuto 1000 [()] stateA).positions =
      (recalcState cfgAuto 1000 [()] stateB).positions ∧
      (recalcState cfgAuto 1000 [()] stateA).itemHeights = stateA.itemHeights) :=
  ⟨rfl, recalculate_deterministic cfgAuto 1000 [()] stateA stateB rfl⟩

/-- C10: the guard returning an empty positions array tests only column count
exactly `0`; a negative resolved column count (reachable in breakpoint mode,
whose table values are not clamped — for instance `{default: 2, md: -1}` at
width `800`) together with a non-empty item list passes the guard, the
column-heights array is built empty (`Array.from` clamps a negative length to
`0`), the minimum over no columns selects index `-1` (`Math.min()` is
`Infinity` and `indexOf` misses), and reading a position's `y` at that index
is an out-of-bounds access (`undefined`), not an empty result or an error. -/
theorem calculatePositions_negative_count {α κ : Type} [DecidableEq κ]
    (cfg : WaterfallConfig α κ) (w : ℚ) (items : List α)
    (hneg : columnCount cfg.columns w cfg.columnWidth cfg.gap < 0)
    (hne : items.length ≠ 0) :
    ¬ (columnCount cfg.columns w cfg.columnWidth cfg.gap = 0 ∨ items.length = 0) ∧
    mkColumnHeights (columnCount cfg.columns w cfg.columnWidth cfg.gap) = [] ∧
    shortestColumnIdx (mkColumnHeights (columnCount cfg.columns w cfg.columnWidth cfg.gap)) =
      -1 ∧
    listGetInt (mkColumnHeights (columnCount cfg.columns w cfg.columnWidth cfg.gap))
      (shortestColumnIdx (mkColumnHeights (columnCount cfg.columns w cfg.columnWidth cfg.gap))) =
      none ∧
    columnCount (.breakpoints bpNegMd) 800 250 16 < 0 := by
  have htn : (columnCount cfg.columns w cfg.columnWidth cfg.gap).toNat = 0 := by omega
  have hmk : mkColumnHeights (columnCount cfg.columns w cfg.columnWidth cfg.gap) = [] := by
    simp [mkColumnHeights, htn]
  refine ⟨?_, hmk, ?_, ?_, by decide⟩
  · push_neg
    exact ⟨by omega, hne⟩
  · rw [hmk]; rfl
  · rw [hmk]; rfl

/-- C10 witness: the negative-count behaviour instantiated at the breakpoint
table `{default: 2, md: -1}`, width `800` and a one-item list. -/
theorem calculatePositions_negative_count_witness :
    columnCount cfgNegBp.columns 800 cfgNegBp.columnWidth cfgNegBp.gap < 0 ∧
    ([()] : List Unit).length ≠ 0 ∧
    (¬ (columnCount cfgNegBp.columns 800 cfgNegBp.columnWidth cfgNegBp.gap = 0 ∨
        ([()] : List Unit).length = 0) ∧
      mkColumnHeights (columnCount cfgNegBp.columns 800 cfgNegBp.columnWidth cfgNegBp.gap) =
        [] ∧
      shortestColumnIdx
        (mkColumnHeights (columnCount cfgNegBp.columns 800 cfgNegBp.columnWidth cfgNegBp.gap)) =
        -1 ∧
      listGetInt
        (mkColumnHeights (columnCount cfgNegBp.columns 800 cfgNegBp.columnWidth cfgNegBp.gap))
        (shortestColumnIdx
          (mkColumnHeights
            (columnCount cfgNegBp.columns 800 cfgNegBp.columnWidth cfgNegBp.gap))) = none ∧
      columnCount (.breakpoints bpNegMd) 800 250 16 < 0) :=
  ⟨by decide, by decide,
    calculatePositions_negative_count cfgNegBp 800 [()] (by decide) (by decide)⟩

end Waterfall
